import Mathlib

/-!
Verification of the claude-transcription-tool post-processing pipeline.

This file gives a shallow embedding of the pure core of the repository
(`transcribe.js`, `src/api/openai.js`, `src/utils/formatters.js`,
`src/utils/storage.js`) and proves properties of segmentation, speaker
identification, paragraph reflow, deduplication, collision-safe naming and
metadata upsert against it.

Modelling conventions:
- JavaScript strings are modelled by `String`; `.length` is the Lean character
  count (code points rather than UTF-16 units, which agree on the material at
  hand).
- External asynchronous calls (AssemblyAI, OpenAI, the filesystem, SQLite) are
  modelled by explicit inputs: the classifier's outcome is an
  `Except String _` value, the filesystem is the list of existing paths, the
  database is a list of rows.
- A JavaScript exception is modelled by an `Option`/error result.
-/

namespace Transcription

/-- An utterance as produced by the transcription provider and manipulated by
`transcribe.js`: `{ speaker, text, start, end }` (the JS field `end` is named
`stop` here because `end` is a Lean keyword). Timestamps are milliseconds. -/
structure Utterance where
  speaker : String
  text : String
  start : Int
  stop : Int
  deriving Repr, DecidableEq

/-- Sentences returned by `assemblyai.getSentences` have the same shape as
utterances. -/
abbrev Sentence := Utterance

/-- The string-joining step of `groupSentences`
(`current.text += (current.text ? ' ' : '') + s.text` in `transcribe.js`):
append with a single separating space unless the accumulator is empty. -/
def appendSp (acc t : String) : String :=
  if acc = "" then t else acc ++ " " ++ t

/-- Joining a list of texts the way repeated `appendSp` does, starting from
the empty accumulator.  This is the reference "concatenation ignoring the
inserted joining whitespace" used by the content-preservation property. -/
def joinSp (l : List String) : String :=
  l.foldl appendSp ""

/-- The `for (const s of sentences)` loop body of `groupSentences`
(`transcribe.js` lines 110-118), including the final
`if (current.text) grouped.push(current)`.  `current` is the chunk being
accumulated; a chunk is flushed when appending the next sentence would push
the accumulated text over `maxChars` (and the accumulator is non-empty). -/
def groupLoop (current : Utterance) (sentences : List Sentence) (maxChars : Nat) :
    List Utterance :=
  match sentences with
  | [] => if current.text = "" then [] else [current]
  | s :: rest =>
    if maxChars < current.text.length + s.text.length ∧ 0 < current.text.length then
      current ::
        groupLoop { speaker := s.speaker, text := appendSp "" s.text,
                    start := s.start, stop := s.stop } rest maxChars
    else
      groupLoop { current with text := appendSp current.text s.text, stop := s.stop }
        rest maxChars

/-- `groupSentences(sentences, maxChars)` from `transcribe.js` lines 107-120.
The JS code reads `sentences[0].speaker` and `sentences[0].start`
unconditionally, so on an empty list it throws a `TypeError`; this is
modelled by `none`. -/
def groupSentences (sentences : List Sentence) (maxChars : Nat) :
    Option (List Utterance) :=
  match sentences with
  | [] => none
  | s0 :: _ =>
    some (groupLoop { speaker := s0.speaker, text := "", start := s0.start, stop := 0 }
      sentences maxChars)

/-- The timestamp-overlap filter of `splitLongUtterances`
(`sentences.filter(s => s.start >= u.start && s.end <= u.end)`). -/
def inSpan (u : Utterance) (s : Sentence) : Bool :=
  u.start ≤ s.start && s.stop ≤ u.stop

/-- `splitLongUtterances(utterances, sentences, threshold)` from
`transcribe.js` lines 127-146.  Short utterances pass through; an oversized
utterance with no sentences inside its own timestamp span also passes
through; otherwise the utterance is replaced by the sentence-grouped chunks,
which keep the original utterance's speaker (and other fields) with the
chunk's text and timestamps.  Inside this function `groupSentences` is only
called on a non-empty list, so the `TypeError` case cannot occur; the
recursion inlines that non-empty call via `groupLoop`. -/
def splitLongUtterances (utterances : List Utterance) (sentences : List Sentence)
    (threshold : Nat) : List Utterance :=
  match utterances with
  | [] => []
  | u :: rest =>
    (if u.text.length ≤ threshold then [u]
     else
       match sentences.filter (inSpan u) with
       | [] => [u]
       | s0 :: tl =>
         (groupLoop { speaker := s0.speaker, text := "", start := s0.start, stop := 0 }
            (s0 :: tl) threshold).map
           (fun g => { u with text := g.text, start := g.start, stop := g.stop }))
    ++ splitLongUtterances rest sentences threshold

/-! ### Basic string lemmas for the joining operation -/

lemma length_pos_iff_ne_empty (s : String) : 0 < s.length ↔ s ≠ "" := by
  cases s with
  | mk data =>
    cases data with
    | nil => simp [String.length]
    | cons c cs =>
      simp only [String.length]
      constructor
      · intro _ h
        exact absurd (congrArg String.data h) (by simp)
      · intro _
        simp

lemma appendSp_empty (t : String) : appendSp "" t = t := rfl

lemma appendSp_length_of_ne (acc t : String) (h : acc ≠ "") :
    (appendSp acc t).length = acc.length + 1 + t.length := by
  simp only [appendSp, if_neg h, String.length_append]
  rfl

lemma appendSp_ne_empty (acc t : String) (h : acc ≠ "") : appendSp acc t ≠ "" := by
  rw [← length_pos_iff_ne_empty] at h ⊢
  rw [appendSp_length_of_ne _ _ ((length_pos_iff_ne_empty acc).1 h)]
  omega

lemma foldl_appendSp_ne_empty (l : List String) (acc : String) (h : acc ≠ "") :
    l.foldl appendSp acc ≠ "" := by
  induction l generalizing acc with
  | nil => exact h
  | cons x xs ih => exact ih _ (appendSp_ne_empty _ _ h)

lemma appendSp_assoc (a b c : String) (hb : b ≠ "") :
    appendSp (appendSp a b) c = appendSp a (appendSp b c) := by
  by_cases ha : a = ""
  · simp [ha, appendSp_empty]
  · have h3 : appendSp a b ≠ "" := appendSp_ne_empty a b ha
    have h4 : a ++ (" " ++ b) ≠ "" := by
      rw [appendSp, if_neg ha] at h3
      rw [← String.append_assoc]
      exact h3
    simp only [appendSp, if_neg ha, if_neg hb, if_neg h4, String.append_assoc]

lemma foldl_appendSp_hoist (l : List String) (a b : String) (hb : b ≠ "") :
    l.foldl appendSp (appendSp a b) = appendSp a (l.foldl appendSp b) := by
  induction l generalizing b with
  | nil => rfl
  | cons c cs ih =>
    simp only [List.foldl_cons]
    rw [appendSp_assoc a b c hb, ih (appendSp b c) (appendSp_ne_empty b c hb)]

lemma joinSp_cons (a : String) (l : List String) :
    joinSp (a :: l) = l.foldl appendSp a := by
  simp [joinSp, appendSp_empty]

lemma foldl_appendSp_cons (x : String) (l : List String) (a : String) (hx : x ≠ "") :
    (x :: l).foldl appendSp a = appendSp a ((x :: l).foldl appendSp "") := by
  simp only [List.foldl_cons, appendSp_empty]
  exact foldl_appendSp_hoist l a x hx

/-- Folding texts into a non-trivial accumulator factors through `joinSp`,
as long as every fragment is non-empty and there is at least one. -/
lemma joinSp_foldl_aux (L : List String) (a : String) (hall : ∀ x ∈ L, x ≠ "")
    (hjoin : joinSp L ≠ "") :
    L.foldl appendSp a = appendSp a (joinSp L) := by
  cases L with
  | nil => exact absurd rfl hjoin
  | cons x xs =>
    rw [foldl_appendSp_cons x xs a (hall x (List.mem_cons_self x xs))]
    rfl

/-! ### Segmenter lemmas -/

/-- Every chunk emitted by the grouping loop has non-empty text: a chunk is
flushed only when its accumulated text is non-empty, and the trailing chunk
is pushed only under `if (current.text)`. -/
lemma groupLoop_text_ne_empty (sentences : List Sentence) (current : Utterance)
    (maxChars : Nat) :
    ∀ c ∈ groupLoop current sentences maxChars, c.text ≠ "" := by
  induction sentences generalizing current with
  | nil =>
    intro c hc
    by_cases h : current.text = "" <;> simp [groupLoop, h] at hc
    rw [hc]
    exact h
  | cons s rest ih =>
    intro c hc
    rw [groupLoop] at hc
    split at hc
    · rename_i hcond
      rcases List.mem_cons.1 hc with rfl | hmem
      · exact (length_pos_iff_ne_empty c.text).1 hcond.2
      · exact ih _ _ hmem
    · exact ih _ _ hc

/-- Content preservation of the grouping loop: joining the texts of all
emitted chunks (with single spaces) equals folding all the sentence texts
into the accumulator, provided each sentence text is non-empty. -/
lemma groupLoop_joinSp (sentences : List Sentence) (current : Utterance)
    (maxChars : Nat) (hne : ∀ s ∈ sentences, s.text ≠ "") :
    joinSp ((groupLoop current sentences maxChars).map (·.text)) =
      (sentences.map (·.text)).foldl appendSp current.text := by
  induction sentences generalizing current with
  | nil =>
    by_cases h : current.text = "" <;> simp [groupLoop, h, joinSp, appendSp_empty]
  | cons s rest ih =>
    have hs : s.text ≠ "" := hne s (List.mem_cons_self s rest)
    have hrest : ∀ x ∈ rest, x.text ≠ "" := fun x hx => hne x (List.mem_cons_of_mem _ hx)
    rw [groupLoop]
    split
    · rename_i hcond
      have ihx : joinSp ((groupLoop ⟨s.speaker, appendSp "" s.text, s.start, s.stop⟩
            rest maxChars).map (·.text)) =
          (rest.map (·.text)).foldl appendSp s.text :=
        ih ⟨s.speaker, appendSp "" s.text, s.start, s.stop⟩ hrest
      have hall : ∀ x ∈ (groupLoop (⟨s.speaker, appendSp "" s.text, s.start, s.stop⟩ :
          Utterance) rest maxChars).map (·.text), x ≠ "" := by
        intro x hx
        rcases List.mem_map.1 hx with ⟨c, hc, rfl⟩
        exact groupLoop_text_ne_empty _ _ _ c hc
      have hjoin : joinSp ((groupLoop (⟨s.speaker, appendSp "" s.text, s.start, s.stop⟩ :
          Utterance) rest maxChars).map (·.text)) ≠ "" := by
        rw [ihx]
        exact foldl_appendSp_ne_empty _ _ hs
      rw [List.map_cons, joinSp_cons, joinSp_foldl_aux _ current.text hall hjoin, ihx,
        List.map_cons, List.foldl_cons, foldl_appendSp_hoist _ _ _ hs]
    · rw [ih _ hrest]
      simp [List.foldl_cons]

/-- `groupSentences` preserves content: joining the chunk texts equals joining
the sentence texts, provided each sentence text is non-empty. -/
lemma groupSentences_joinSp (sentences : List Sentence) (maxChars : Nat)
    (gs : List Utterance) (hgs : groupSentences sentences maxChars = some gs)
    (hne : ∀ s ∈ sentences, s.text ≠ "") :
    joinSp (gs.map (·.text)) = joinSp (sentences.map (·.text)) := by
  cases sentences with
  | nil => exact absurd hgs (by simp [groupSentences])
  | cons s0 tl =>
    have : gs = groupLoop ⟨s0.speaker, "", s0.start, 0⟩ (s0 :: tl) maxChars := by
      have := hgs
      rw [groupSentences] at this
      exact (Option.some_injective _ this).symm
    rw [this, groupLoop_joinSp (s0 :: tl) _ maxChars hne]
    rfl

/-- Fold form of content preservation for `splitLongUtterances`: assuming each
oversized utterance's in-span sentences rejoin to exactly its text, the
output texts fold to the same string as the input texts. -/
lemma splitLongUtterances_foldl (utterances : List Utterance)
    (sentences : List Sentence) (threshold : Nat) (acc : String)
    (hne : ∀ s ∈ sentences, s.text ≠ "")
    (hre : ∀ u ∈ utterances, threshold < u.text.length →
      sentences.filter (inSpan u) ≠ [] →
      joinSp ((sentences.filter (inSpan u)).map (·.text)) = u.text) :
    ((splitLongUtterances utterances sentences threshold).map (·.text)).foldl appendSp acc
      = (utterances.map (·.text)).foldl appendSp acc := by
  induction utterances generalizing acc with
  | nil => rfl
  | cons u rest ih =>
    have hrest : ∀ v ∈ rest, threshold < v.text.length →
        sentences.filter (inSpan v) ≠ [] →
        joinSp ((sentences.filter (inSpan v)).map (·.text)) = v.text :=
      fun v hv => hre v (List.mem_cons_of_mem _ hv)
    rw [splitLongUtterances]
    by_cases hlen : u.text.length ≤ threshold
    · simp only [if_pos hlen, List.singleton_append, List.map_cons, List.foldl_cons]
      exact ih _ hrest
    · rw [if_neg hlen]
      cases hf : sentences.filter (inSpan u) with
      | nil =>
        simp only [List.singleton_append, List.map_cons, List.foldl_cons]
        exact ih _ hrest
      | cons s0 tl =>
        have hmem : ∀ x ∈ s0 :: tl, x.text ≠ "" := by
          intro x hx
          exact hne x (List.mem_filter.1 (hf ▸ hx)).1
        have hju : joinSp ((groupLoop ⟨s0.speaker, "", s0.start, 0⟩ (s0 :: tl)
            threshold).map (·.text)) = u.text := by
          rw [groupLoop_joinSp (s0 :: tl) _ threshold hmem]
          have : joinSp (((s0 :: tl) : List Sentence).map (·.text)) = u.text := by
            rw [← hf]
            exact hre u (List.mem_cons_self u rest) (Nat.lt_of_not_le hlen)
              (by rw [hf]; exact List.cons_ne_nil s0 tl)
          exact this
        have hutext : u.text ≠ "" := by
          rw [← length_pos_iff_ne_empty]
          omega
        have hall : ∀ x ∈ (groupLoop (⟨s0.speaker, "", s0.start, 0⟩ : Utterance)
            (s0 :: tl) threshold).map (·.text), x ≠ "" := by
          intro x hx
          rcases List.mem_map.1 hx with ⟨c, hc, rfl⟩
          exact groupLoop_text_ne_empty _ _ _ c hc
        rw [List.map_append, List.foldl_append, List.map_map]
        have hcomp : ((fun u' => u'.text) ∘
            (fun g => { u with text := g.text, start := g.start, stop := g.stop })) =
            fun g : Utterance => g.text := rfl
        rw [hcomp, joinSp_foldl_aux _ acc hall (by rw [hju]; exact hutext), hju,
          List.map_cons, List.foldl_cons]
        exact ih _ hrest

/-! ### Threshold bound lemmas -/

/-- One-character slack bound for the grouping loop: if every sentence text
is at most `maxChars` long and the accumulator is at most `maxChars + 1`
long, then every emitted chunk text is at most `maxChars + 1` long (the
extra character is the inserted joining space). -/
lemma groupLoop_length_le (sentences : List Sentence) (current : Utterance)
    (maxChars : Nat) (hs : ∀ s ∈ sentences, s.text.length ≤ maxChars)
    (hc : current.text.length ≤ maxChars + 1) :
    ∀ c ∈ groupLoop current sentences maxChars, c.text.length ≤ maxChars + 1 := by
  induction sentences generalizing current with
  | nil =>
    intro c hc'
    by_cases h : current.text = "" <;> simp [groupLoop, h] at hc'
    rw [hc']
    exact hc
  | cons s rest ih =>
    intro c hc'
    have hslen : s.text.length ≤ maxChars := hs s (List.mem_cons_self s rest)
    have hrest : ∀ x ∈ rest, x.text.length ≤ maxChars :=
      fun x hx => hs x (List.mem_cons_of_mem _ hx)
    rw [groupLoop] at hc'
    split at hc'
    · rcases List.mem_cons.1 hc' with rfl | hmemb
      · exact hc
      · refine ih _ hrest ?_ c hmemb
        simp only [appendSp_empty]
        omega
    · rename_i hcond
      refine ih _ hrest ?_ c hc'
      by_cases hccur : current.text = ""
      · simp only [hccur, appendSp_empty]
        omega
      · have : (appendSp current.text s.text).length =
            current.text.length + 1 + s.text.length :=
          appendSp_length_of_ne _ _ hccur
        simp only [this]
        have hpos : 0 < current.text.length := (length_pos_iff_ne_empty _).2 hccur
        omega

/-- Threshold bound for `splitLongUtterances`: if every sentence text is at
most `threshold` long, every output utterance text is at most
`threshold + 1` long, except oversized utterances with no in-span sentence,
which pass through unmodified. -/
lemma splitLongUtterances_length_le (utterances : List Utterance)
    (sentences : List Sentence) (threshold : Nat)
    (hs : ∀ s ∈ sentences, s.text.length ≤ threshold) :
    ∀ v ∈ splitLongUtterances utterances sentences threshold,
      v.text.length ≤ threshold + 1 ∨
      (threshold < v.text.length ∧ v ∈ utterances ∧
        sentences.filter (inSpan v) = []) := by
  induction utterances with
  | nil =>
    intro v hv
    simp [splitLongUtterances] at hv
  | cons u rest ih =>
    intro v hv
    rw [splitLongUtterances] at hv
    rcases List.mem_append.1 hv with hb | hr
    · by_cases hlen : u.text.length ≤ threshold
      · rw [if_pos hlen, List.mem_singleton] at hb
        subst hb
        left
        omega
      · rw [if_neg hlen] at hb
        cases hf : sentences.filter (inSpan u) with
        | nil =>
          rw [hf, List.mem_singleton] at hb
          subst hb
          right
          exact ⟨Nat.lt_of_not_le hlen, List.mem_cons_self v rest, hf⟩
        | cons s0 tl =>
          rw [hf] at hb
          rcases List.mem_map.1 hb with ⟨g, hg, rfl⟩
          left
          have hmem : ∀ x ∈ s0 :: tl, x.text.length ≤ threshold := by
            intro x hx
            exact hs x (List.mem_filter.1 (hf ▸ hx)).1
          have := groupLoop_length_le (s0 :: tl) ⟨s0.speaker, "", s0.start, 0⟩
            threshold hmem (by simp) g hg
          simpa using this
    · rcases ih v hr with h1 | ⟨h2a, h2b, h2c⟩
      · exact Or.inl h1
      · exact Or.inr ⟨h2a, List.mem_cons_of_mem _ h2b, h2c⟩

/-! ### Claim C1 — Segmenter content preservation -/

/-- C1 counterexample: the claim quantifies over every utterance list and
every fetched sentence list, but for an oversized utterance the Segmenter
rebuilds the text from the sentence texts, which for an arbitrary sentence
list need not reproduce the utterance text.  Here the oversized utterance
`"aaaaa"` (threshold 4) has a single in-span sentence with text `"b"`, and
the output concatenation is `"b"`, not `"aaaaa"`. -/
theorem C1_counterexample :
    joinSp ((splitLongUtterances [⟨"A", "aaaaa", 0, 10⟩] [⟨"A", "b", 0, 1⟩] 4).map
      (·.text)) ≠
    joinSp (([⟨"A", "aaaaa", 0, 10⟩] : List Utterance).map (·.text)) := by
  decide

/-- C1 (amended): content preservation holds under the data-model invariant
that sentence texts are non-empty, and under the hypothesis that for every
oversized utterance the single-space join of its in-span sentence texts is
exactly its own text.  Then (1) `groupSentences` preserves the joined text
of its sentence input, and (2) `splitLongUtterances` preserves the joined
text of its utterance input — no characters are dropped or duplicated
beyond the inserted joining whitespace. -/
theorem C1_segmenter_content_preservation (utterances : List Utterance)
    (sentences : List Sentence) (threshold : Nat)
    (hne : ∀ s ∈ sentences, s.text ≠ "")
    (hre : ∀ u ∈ utterances, threshold < u.text.length →
      sentences.filter (inSpan u) ≠ [] →
      joinSp ((sentences.filter (inSpan u)).map (·.text)) = u.text) :
    (∀ gs, groupSentences sentences threshold = some gs →
      joinSp (gs.map (·.text)) = joinSp (sentences.map (·.text))) ∧
    joinSp ((splitLongUtterances utterances sentences threshold).map (·.text)) =
      joinSp (utterances.map (·.text)) := by
  constructor
  · intro gs hgs
    exact groupSentences_joinSp sentences threshold gs hgs hne
  · exact splitLongUtterances_foldl utterances sentences threshold "" hne hre

/-- C1 witness: the amended preservation theorem applied at a concrete
oversized utterance whose in-span sentences rejoin to its text. -/
theorem C1_segmenter_content_preservation_witness :
    (∀ s ∈ ([⟨"A", "abc", 0, 1⟩, ⟨"A", "de", 1, 2⟩] : List Sentence), s.text ≠ "") ∧
    joinSp ((splitLongUtterances [⟨"A", "abc de", 0, 10⟩]
      [⟨"A", "abc", 0, 1⟩, ⟨"A", "de", 1, 2⟩] 4).map (·.text)) =
    joinSp (([⟨"A", "abc de", 0, 10⟩] : List Utterance).map (·.text)) :=
  ⟨by decide,
    (C1_segmenter_content_preservation [⟨"A", "abc de", 0, 10⟩]
      [⟨"A", "abc", 0, 1⟩, ⟨"A", "de", 1, 2⟩] 4 (by decide) (by decide)).2⟩

/-! ### Claim C2 — Threshold invariant -/

/-- C2 counterexample: the inserted joining space is not counted by the
accumulation guard (`current.text.length + s.text.length > maxChars`), so a
chunk of length `threshold + 1` can be produced.  With threshold 3 the
oversized utterance `"abcd"` has in-span sentences `"ab"`, `"c"`, and the
output chunk `"ab c"` has length 4 > 3, while the pass-through exception
does not apply (its in-span sentence list is non-empty). -/
theorem C2_counterexample :
    splitLongUtterances [⟨"A", "abcd", 0, 10⟩]
      [⟨"A", "ab", 0, 1⟩, ⟨"A", "c", 1, 2⟩] 3 = [⟨"A", "ab c", 0, 2⟩] ∧
    ¬ (("ab c" : String).length ≤ 3) ∧
    ([⟨"A", "ab", 0, 1⟩, ⟨"A", "c", 1, 2⟩] : List Sentence).filter
      (inSpan ⟨"A", "abcd", 0, 10⟩) ≠ [] := by
  refine ⟨rfl, by decide, by decide⟩

/-- C2 (amended): provided every individual sentence text is at most
`threshold` long, every chunk produced by `groupSentences` and every output
of `splitLongUtterances` has text length at most `threshold + 1` (the one
extra character being the inserted joining space), except an oversized
utterance with zero in-span sentences, which passes through unmodified. -/
theorem C2_threshold_invariant (utterances : List Utterance)
    (sentences : List Sentence) (threshold : Nat)
    (hs : ∀ s ∈ sentences, s.text.length ≤ threshold) :
    (∀ gs, groupSentences sentences threshold = some gs →
      ∀ c ∈ gs, c.text.length ≤ threshold + 1) ∧
    (∀ v ∈ splitLongUtterances utterances sentences threshold,
      v.text.length ≤ threshold + 1 ∨
      (threshold < v.text.length ∧ v ∈ utterances ∧
        sentences.filter (inSpan v) = [])) := by
  constructor
  · intro gs hgs c hc
    cases sentences with
    | nil => exact absurd hgs (by simp [groupSentences])
    | cons s0 tl =>
      have hgs' : gs = groupLoop ⟨s0.speaker, "", s0.start, 0⟩ (s0 :: tl) threshold := by
        rw [groupSentences] at hgs
        exact (Option.some_injective _ hgs).symm
      exact groupLoop_length_le (s0 :: tl) _ threshold hs (by simp) c (hgs' ▸ hc)
  · exact splitLongUtterances_length_le utterances sentences threshold hs

/-- C2 witness: the amended bound applied at the counterexample input, whose
sentences are all within the threshold. -/
theorem C2_threshold_invariant_witness :
    (∀ s ∈ ([⟨"A", "ab", 0, 1⟩, ⟨"A", "c", 1, 2⟩] : List Sentence),
      s.text.length ≤ 3) ∧
    (∀ v ∈ splitLongUtterances [⟨"A", "abcd", 0, 10⟩]
        [⟨"A", "ab", 0, 1⟩, ⟨"A", "c", 1, 2⟩] 3,
      v.text.length ≤ 4 ∨
      (3 < v.text.length ∧ v ∈ [⟨"A", "abcd", 0, 10⟩] ∧
        ([⟨"A", "ab", 0, 1⟩, ⟨"A", "c", 1, 2⟩] : List Sentence).filter (inSpan v) = [])) :=
  ⟨by decide,
    (C2_threshold_invariant [⟨"A", "abcd", 0, 10⟩]
      [⟨"A", "ab", 0, 1⟩, ⟨"A", "c", 1, 2⟩] 3 (by decide)).2⟩

/-! ### Speaker identification (`src/api/openai.js`) -/

/-- Confidence tier of the `SpeakerSchema` Zod enum. -/
inductive Confidence where
  | high
  | medium
  | low
  deriving Repr, DecidableEq

/-- One entry of the speaker mapping (`SpeakerSchema`). -/
structure Speaker where
  label : String
  name : String
  confidence : Confidence
  deriving Repr, DecidableEq

/-- The structured classifier response (`SpeakerIdentificationSchema`). -/
structure SpeakerIdentification where
  speakers : List Speaker
  reasoning : String
  deriving Repr, DecidableEq

/-- `[...new Set(arr)]`: deduplication keeping the first occurrence of each
element, in order. -/
def dedupFirst : List String → List String
  | [] => []
  | x :: xs => x :: dedupFirst (xs.filter (fun y => y ≠ x))
termination_by l => l.length
decreasing_by
  simp only [List.length_cons]
  exact Nat.lt_succ_of_le (List.length_filter_le _ xs)

/-- `jsSlice l start stop` is ECMAScript `Array.prototype.slice(start, stop)`:
negative indices count from the end and both indices are clamped to
`[0, length]`. -/
def jsSlice {α : Type} (l : List α) (start stop : Int) : List α :=
  let len : Int := l.length
  let s := if start < 0 then max (len + start) 0 else min start len
  let e := if stop < 0 then max (len + stop) 0 else min stop len
  (l.drop s.toNat).take (e - s).toNat

/-- `sampleUtterances(utterances, maxTotal)` from `src/api/openai.js` lines
54-71: the whole list when it is within `maxTotal`, otherwise the first 20,
a centred run of 15 (`midStart = Math.floor((length - 15) / 2)`), and the
last 15 (`slice(-15)`), concatenated in that order. -/
def sampleUtterances (utterances : List Utterance) (maxTotal : Nat) : List Utterance :=
  if utterances.length ≤ maxTotal then utterances
  else
    let beginning := jsSlice utterances 0 20
    let midStart : Int := ((utterances.length : Int) - 15) / 2
    let middle := jsSlice utterances midStart (midStart + 15)
    let tailPart := jsSlice utterances (-15) (utterances.length : Int)
    beginning ++ middle ++ tailPart

/-- `identifySpeakers(utterances, context)` from `src/api/openai.js` lines
148-202.  The external OpenAI call is modelled by its outcome
`classifier : Except String SpeakerIdentification` (`Except.error msg` for a
thrown error with message `msg`).  On the empty utterance list the function
returns early without calling the classifier; on a classifier error it
degrades to an identity mapping over the distinct labels of the full
utterance list, with confidence `low` and a rationale naming the failure.
The `context` string only shapes the prompt of the external call. -/
def identifySpeakers (utterances : List Utterance) (_context : String)
    (classifier : Except String SpeakerIdentification) : SpeakerIdentification :=
  if utterances.isEmpty then { speakers := [], reasoning := "No utterances provided" }
  else
    match classifier with
    | Except.ok result => result
    | Except.error msg =>
      { speakers := (dedupFirst (utterances.map (·.speaker))).map
          (fun label => { label := label, name := label, confidence := Confidence.low }),
        reasoning := "Identification failed: " ++ msg }

/-! ### Paragraph reflow (`src/api/openai.js` lines 77-127, 212-240) -/

/-- The fragment-merging loop of `breakOnePassage`: accumulate fragments into
`buffer` (joined by single spaces, exactly `appendSp`), flushing to `merged`
whenever the buffer reaches 150 characters. -/
def mergeLoop (merged : List String) (buffer : String) (chunks : List String) :
    List String × String :=
  match chunks with
  | [] => (merged, buffer)
  | chunk :: rest =>
    let buffer' := appendSp buffer chunk
    if 150 ≤ buffer'.length then mergeLoop (merged ++ [buffer']) "" rest
    else mergeLoop merged buffer' rest

/-- `merged[merged.length - 1] += ' ' + buffer` when `merged` is non-empty,
otherwise `merged.push(buffer)`. -/
def appendToLast (l : List String) (b : String) : List String :=
  match l with
  | [] => [b]
  | [x] => [x ++ " " ++ b]
  | x :: y :: xs => x :: appendToLast (y :: xs) b

/-- The complete merging step of `breakOnePassage`: run the loop, then fold a
leftover short buffer backward into the last merged paragraph (or keep it
alone when nothing was merged). -/
def mergeShortParagraphs (chunks : List String) : List String :=
  let result := mergeLoop [] "" chunks
  if result.2 = "" then result.1 else appendToLast result.1 result.2

/-- `breakOnePassage` from `src/api/openai.js` lines 77-127, as a function of
the ordered fragment list returned by the external text-structuring call:
`{ text: null }` (here `none`) when the call returned no fragments,
otherwise the merged paragraphs joined by a blank line. -/
def breakOnePassage (texts : List String) : Option String :=
  if texts.isEmpty then none
  else some (String.intercalate "\n\n" (mergeShortParagraphs texts))

/-- The per-utterance update step of `breakIntoParagraphs`: walk the
utterances, consuming one external response per long entry (index `k`
counts long entries seen so far; a missing or failed call is `none`).  The
JS guard `if (text) updated[idx] = { ...updated[idx], text }` also rejects
the empty string. -/
def applyParagraphResults (utterances : List Utterance)
    (responses : List (Option (List String))) (threshold : Nat) (k : Nat) :
    List Utterance :=
  match utterances with
  | [] => []
  | u :: rest =>
    if threshold < u.text.length then
      (match (responses.getD k none).bind breakOnePassage with
       | none => u
       | some t => if t = "" then u else { u with text := t }) ::
        applyParagraphResults rest responses threshold (k + 1)
    else u :: applyParagraphResults rest responses threshold k

/-- `breakIntoParagraphs(utterances, { threshold })` from `src/api/openai.js`
lines 212-240: utterances with text longer than `threshold` get their text
replaced by the (merged) paragraph-broken version; a failed per-passage call
leaves that utterance unchanged; when no utterance qualifies the input is
returned as is. -/
def breakIntoParagraphs (utterances : List Utterance)
    (responses : List (Option (List String))) (threshold : Nat) : List Utterance :=
  if (utterances.filter (fun u => threshold < u.text.length)).isEmpty then utterances
  else applyParagraphResults utterances responses threshold 0

/-! ### Speaker name mapping (`src/utils/formatters.js` lines 30-44) -/

/-- The `nameMap` object lookup: JS object assignment lets a later entry with
the same label overwrite an earlier one, so the last matching entry wins. -/
def lookupName (mapping : List Speaker) (label : String) : Option String :=
  mapping.foldl (fun acc e => if e.label = label then some e.name else acc) none

/-- `mapSpeakerNames(utterances, speakerMapping)`: `none` models a `null`
mapping.  `nameMap[u.speaker] || u.speaker` falls back to the original label
both when the label has no entry and when the mapped name is the empty
string (a falsy value). -/
def mapSpeakerNames (utterances : List Utterance)
    (speakerMapping : Option (List Speaker)) : List Utterance :=
  match speakerMapping with
  | none => utterances
  | some mapping =>
    if mapping.isEmpty then utterances
    else
      utterances.map (fun u =>
        { u with speaker :=
            match lookupName mapping u.speaker with
            | some name => if name = "" then u.speaker else name
            | none => u.speaker })

/-! ### Lemmas about first-occurrence deduplication -/

lemma mem_dedupFirst : ∀ (n : Nat) (l : List String), l.length ≤ n →
    ∀ x, (x ∈ dedupFirst l ↔ x ∈ l)
  | _, [], _, x => by simp [dedupFirst]
  | 0, y :: ys, h, x => by simp at h
  | n + 1, y :: ys, h, x => by
    rw [dedupFirst]
    have hlen : (ys.filter (fun z => z ≠ y)).length ≤ n := by
      have := List.length_filter_le (fun z => decide (z ≠ y)) ys
      simp only [List.length_cons] at h
      omega
    have ih := mem_dedupFirst n (ys.filter (fun z => z ≠ y)) hlen x
    by_cases hxy : x = y
    · subst hxy
      simp
    · simp only [List.mem_cons, ih, List.mem_filter]
      constructor
      · rintro (rfl | ⟨hmem, _⟩)
        · exact Or.inl rfl
        · exact Or.inr hmem
      · rintro (rfl | hmem)
        · exact Or.inl rfl
        · exact Or.inr ⟨hmem, by simpa using hxy⟩

lemma dedupFirst_nodup : ∀ (n : Nat) (l : List String), l.length ≤ n →
    (dedupFirst l).Nodup
  | _, [], _ => by simp [dedupFirst]
  | 0, y :: ys, h => by simp at h
  | n + 1, y :: ys, h => by
    rw [dedupFirst]
    have hlen : (ys.filter (fun z => z ≠ y)).length ≤ n := by
      have := List.length_filter_le (fun z => decide (z ≠ y)) ys
      simp only [List.length_cons] at h
      omega
    refine List.nodup_cons.2 ⟨?_, dedupFirst_nodup n _ hlen⟩
    intro hmem
    have := (mem_dedupFirst n _ hlen y).1 hmem
    rcases List.mem_filter.1 this with ⟨_, hy⟩
    simp at hy

/-! ### Claim C3 — graceful degradation of speaker identification -/

/-- C3: when the classifier call throws (`Except.error`), `identifySpeakers`
still returns: one entry per distinct speaker label of the full utterance
list (no duplicates, and exactly the labels occurring in the input), each
with `name = label` and confidence `low`, and a reasoning string naming the
failure. -/
theorem C3_graceful_degradation (utterances : List Utterance)
    (context errMsg : String) (hne : utterances ≠ []) :
    ((identifySpeakers utterances context (Except.error errMsg)).speakers.map
        (·.label)).Nodup ∧
    (∀ l, l ∈ (identifySpeakers utterances context (Except.error errMsg)).speakers.map
        (·.label) ↔ l ∈ utterances.map (·.speaker)) ∧
    (∀ s ∈ (identifySpeakers utterances context (Except.error errMsg)).speakers,
      s.name = s.label ∧ s.confidence = Confidence.low) ∧
    (identifySpeakers utterances context (Except.error errMsg)).reasoning =
      "Identification failed: " ++ errMsg := by
  have hemp : utterances.isEmpty = false := by
    cases utterances with
    | nil => exact absurd rfl hne
    | cons a l => rfl
  rw [identifySpeakers]
  simp only [hemp, Bool.false_eq_true, if_false]
  refine ⟨?_, ?_, ?_, trivial⟩
  · have : ((dedupFirst (utterances.map (·.speaker))).map
        (fun label => ({ label := label, name := label, confidence := Confidence.low } :
          Speaker))).map (·.label) = dedupFirst (utterances.map (·.speaker)) := by
      rw [List.map_map]
      exact List.map_id _
    rw [this]
    exact dedupFirst_nodup _ _ le_rfl
  · intro l
    rw [List.map_map]
    have : ((fun s : Speaker => s.label) ∘
        (fun label => ({ label := label, name := label, confidence := Confidence.low } :
          Speaker))) = id := rfl
    rw [this, List.map_id]
    exact mem_dedupFirst _ _ le_rfl l
  · intro s hs
    rcases List.mem_map.1 hs with ⟨label, _, rfl⟩
    exact ⟨rfl, rfl⟩

/-- C3 witness: the degradation theorem applied to a concrete three-utterance
transcript with two distinct labels and a thrown classifier error. -/
theorem C3_graceful_degradation_witness :
    ([⟨"A", "hi", 0, 1⟩, ⟨"B", "yo", 1, 2⟩, ⟨"A", "ok", 2, 3⟩] : List Utterance) ≠ [] ∧
    ((identifySpeakers [⟨"A", "hi", 0, 1⟩, ⟨"B", "yo", 1, 2⟩, ⟨"A", "ok", 2, 3⟩] ""
        (Except.error "boom")).speakers.map (·.label)).Nodup ∧
    (identifySpeakers [⟨"A", "hi", 0, 1⟩, ⟨"B", "yo", 1, 2⟩, ⟨"A", "ok", 2, 3⟩] ""
        (Except.error "boom")).reasoning = "Identification failed: boom" :=
  ⟨by decide,
    (C3_graceful_degradation [⟨"A", "hi", 0, 1⟩, ⟨"B", "yo", 1, 2⟩, ⟨"A", "ok", 2, 3⟩]
      "" "boom" (by decide)).1,
    (C3_graceful_degradation [⟨"A", "hi", 0, 1⟩, ⟨"B", "yo", 1, 2⟩, ⟨"A", "ok", 2, 3⟩]
      "" "boom" (by decide)).2.2.2⟩

/-! ### Claim C6 — sampling policy -/

lemma jsSlice_nonneg {α : Type} (l : List α) (a b : Int) (ha : 0 ≤ a) (hab : a ≤ b)
    (hb : b ≤ l.length) :
    jsSlice l a b = (l.drop a.toNat).take (b - a).toNat := by
  rw [jsSlice]
  have h1 : ¬ a < 0 := by omega
  have h2 : ¬ b < 0 := by omega
  have h3 : min a (l.length : Int) = a := by omega
  have h4 : min b (l.length : Int) = b := by omega
  simp only [if_neg h1, if_neg h2, h3, h4]

lemma jsSlice_neg_start {α : Type} (l : List α) (k : Nat) (hk0 : 0 < k)
    (hk : k ≤ l.length) :
    jsSlice l (-(k : Int)) l.length = l.drop (l.length - k) := by
  rw [jsSlice]
  have h1 : (-(k : Int)) < 0 := by omega
  have h2 : ¬ (l.length : Int) < 0 := by omega
  have h3 : max ((l.length : Int) + -(k : Int)) 0 = (l.length : Int) - k := by omega
  have h4 : min (l.length : Int) (l.length : Int) = (l.length : Int) := by omega
  simp only [if_pos h1, if_neg h2, h3, h4]
  have h5 : ((l.length : Int) - k).toNat = l.length - k := by omega
  have h6 : ((l.length : Int) - ((l.length : Int) - k)).toNat = k := by omega
  rw [h5, h6]
  refine List.take_of_length_le ?_
  rw [List.length_drop]
  omega

/-- C6: for utterance lists of length at most 50 the sample is the whole
list; for longer lists it is the first 20 utterances, the 15 utterances
starting at `(length - 15) / 2`, and the last 15, concatenated in original
order. -/
theorem C6_sampling_policy (utterances : List Utterance) :
    (utterances.length ≤ 50 → sampleUtterances utterances 50 = utterances) ∧
    (50 < utterances.length →
      sampleUtterances utterances 50 =
        utterances.take 20 ++
        (utterances.drop ((utterances.length - 15) / 2)).take 15 ++
        utterances.drop (utterances.length - 15)) := by
  constructor
  · intro h
    rw [sampleUtterances, if_pos h]
  · intro h
    rw [sampleUtterances, if_neg (by omega)]
    have h1 : jsSlice utterances 0 20 = utterances.take 20 := by
      rw [jsSlice_nonneg utterances 0 20 (by omega) (by omega) (by omega)]
      simp
    have h2 : jsSlice utterances (((utterances.length : Int) - 15) / 2)
        ((((utterances.length : Int) - 15) / 2) + 15) =
        (utterances.drop ((utterances.length - 15) / 2)).take 15 := by
      rw [jsSlice_nonneg utterances _ _ (by omega) (by omega) (by omega)]
      have ha : ((((utterances.length : Int) - 15) / 2)).toNat =
          (utterances.length - 15) / 2 := by omega
      have hb : (((((utterances.length : Int) - 15) / 2) + 15) -
          (((utterances.length : Int) - 15) / 2)).toNat = 15 := by omega
      rw [ha, hb]
    have h3 : jsSlice utterances (-15) (utterances.length : Int) =
        utterances.drop (utterances.length - 15) := by
      have := jsSlice_neg_start utterances 15 (by omega) (by omega)
      simpa using this
    dsimp only
    rw [h1, h2, h3]

/-- C6 witness: the sampling theorem applied to a one-utterance list (below
the cap) and to a 51-utterance list (above the cap). -/
theorem C6_sampling_policy_witness :
    sampleUtterances [⟨"A", "x", 0, 1⟩] 50 = [⟨"A", "x", 0, 1⟩] ∧
    sampleUtterances (List.replicate 51 (⟨"A", "x", 0, 1⟩ : Utterance)) 50 =
      (List.replicate 51 (⟨"A", "x", 0, 1⟩ : Utterance)).take 20 ++
      ((List.replicate 51 (⟨"A", "x", 0, 1⟩ : Utterance)).drop
        (((List.replicate 51 (⟨"A", "x", 0, 1⟩ : Utterance)).length - 15) / 2)).take 15 ++
      (List.replicate 51 (⟨"A", "x", 0, 1⟩ : Utterance)).drop
        ((List.replicate 51 (⟨"A", "x", 0, 1⟩ : Utterance)).length - 15) :=
  ⟨(C6_sampling_policy [⟨"A", "x", 0, 1⟩]).1 (by simp),
    (C6_sampling_policy (List.replicate 51 ⟨"A", "x", 0, 1⟩)).2 (by simp)⟩

/-! ### Claim C7 — paragraph merge rule -/

lemma mergeLoop_fst_length (chunks : List String) :
    ∀ (merged : List String) (buffer : String),
    (∀ p ∈ merged, 150 ≤ p.length) →
    ∀ p ∈ (mergeLoop merged buffer chunks).1, 150 ≤ p.length := by
  induction chunks with
  | nil =>
    intro merged buffer h p hp
    exact h p hp
  | cons chunk rest ih =>
    intro merged buffer h p hp
    rw [mergeLoop] at hp
    split at hp
    · rename_i hflush
      refine ih _ _ ?_ p hp
      intro q hq
      rcases List.mem_append.1 hq with hq1 | hq2
      · exact h q hq1
      · rw [List.mem_singleton] at hq2
        subst hq2
        exact hflush
    · exact ih _ _ h p hp

lemma appendToLast_length (b : String) : ∀ (l : List String), l ≠ [] →
    (∀ p ∈ l, 150 ≤ p.length) →
    ∀ p ∈ appendToLast l b, 150 ≤ p.length
  | [], h, _ => absurd rfl h
  | [x], _, hall => by
    intro p hp
    rw [appendToLast, List.mem_singleton] at hp
    subst hp
    have hx := hall x (List.mem_singleton.2 rfl)
    rw [String.length_append, String.length_append]
    omega
  | x :: y :: xs, _, hall => by
    intro p hp
    rw [appendToLast] at hp
    rcases List.mem_cons.1 hp with rfl | hmem
    · exact hall p (List.mem_cons_self _ _)
    · exact appendToLast_length b (y :: xs) (List.cons_ne_nil y xs)
        (fun q hq => hall q (List.mem_cons_of_mem _ hq)) p hmem

/-- C7: for a non-empty fragment list, `breakOnePassage` returns the merged
paragraphs joined by a blank line, and every surviving paragraph has length
at least 150, except possibly when the result is a sole single paragraph. -/
theorem C7_paragraph_merge (texts : List String) (hne : texts ≠ []) :
    breakOnePassage texts =
      some (String.intercalate "\n\n" (mergeShortParagraphs texts)) ∧
    (∀ p ∈ mergeShortParagraphs texts,
      150 ≤ p.length ∨ (mergeShortParagraphs texts).length = 1) := by
  constructor
  · rw [breakOnePassage, if_neg (by simpa [List.isEmpty_iff] using hne)]
  · intro p hp
    rw [mergeShortParagraphs] at hp ⊢
    by_cases hbuf : (mergeLoop [] "" texts).2 = ""
    · rw [if_pos hbuf] at hp
      exact Or.inl (mergeLoop_fst_length texts [] "" (by simp) p hp)
    · rw [if_neg hbuf] at hp ⊢
      cases hm : (mergeLoop [] "" texts).1 with
      | nil =>
        rw [hm] at hp
        right
        rfl
      | cons x xs =>
        left
        rw [hm] at hp
        refine appendToLast_length _ (x :: xs) (List.cons_ne_nil x xs) ?_ p hp
        intro q hq
        exact mergeLoop_fst_length texts [] "" (by simp) q (hm ▸ hq)

/-- C7 witness: two short fragments merge into a single surviving paragraph
(the sole-paragraph exception). -/
theorem C7_paragraph_merge_witness :
    (["a", "b"] : List String) ≠ [] ∧
    breakOnePassage ["a", "b"] =
      some (String.intercalate "\n\n" (mergeShortParagraphs ["a", "b"])) ∧
    (∀ p ∈ mergeShortParagraphs ["a", "b"],
      150 ≤ p.length ∨ (mergeShortParagraphs ["a", "b"]).length = 1) :=
  ⟨by decide, (C7_paragraph_merge ["a", "b"] (by decide)).1,
    (C7_paragraph_merge ["a", "b"] (by decide)).2⟩

/-! ### Claims C8 and C10 — speaker name mapping -/

lemma lookupName_identity (mapping : List Speaker) (lab : String)
    (h : ∀ e ∈ mapping, e.name = e.label) :
    lookupName mapping lab = none ∨ lookupName mapping lab = some lab := by
  rw [lookupName]
  have haux : ∀ acc : Option String, (acc = none ∨ acc = some lab) →
      (mapping.foldl (fun acc e => if e.label = lab then some e.name else acc) acc = none ∨
       mapping.foldl (fun acc e => if e.label = lab then some e.name else acc) acc = some lab) := by
    induction mapping with
    | nil => exact fun acc hacc => hacc
    | cons e es ih =>
      intro acc hacc
      rw [List.foldl_cons]
      refine ih (fun x hx => h x (List.mem_cons_of_mem _ hx)) _ ?_
      by_cases hl : e.label = lab
      · right
        rw [if_pos hl, h e (List.mem_cons_self e es), hl]
      · rw [if_neg hl]
        exact hacc
  exact haux none (Or.inl rfl)

lemma lookupName_eq_none (mapping : List Speaker) (lab : String)
    (h : ∀ e ∈ mapping, e.label ≠ lab) :
    lookupName mapping lab = none := by
  rw [lookupName]
  have haux : ∀ acc : Option String,
      mapping.foldl (fun acc e => if e.label = lab then some e.name else acc) acc = acc := by
    induction mapping with
    | nil => exact fun acc => rfl
    | cons e es ih =>
      intro acc
      rw [List.foldl_cons, if_neg (h e (List.mem_cons_self e es))]
      exact ih (fun x hx => h x (List.mem_cons_of_mem _ hx)) acc
  exact haux none

/-- C8: applying `mapSpeakerNames` with a mapping in which every entry's name
equals its label returns the utterance list unchanged, every field of every
utterance included. -/
theorem C8_identity_mapping_idempotent (utterances : List Utterance)
    (mapping : List Speaker) (h : ∀ e ∈ mapping, e.name = e.label) :
    mapSpeakerNames utterances (some mapping) = utterances := by
  rw [mapSpeakerNames]
  by_cases hm : mapping.isEmpty
  · rw [if_pos hm]
  · rw [if_neg hm]
    have hf : ∀ u ∈ utterances,
        ({ u with speaker :=
            match lookupName mapping u.speaker with
            | some name => if name = "" then u.speaker else name
            | none => u.speaker } : Utterance) = u := by
      intro u _
      rcases lookupName_identity mapping u.speaker h with hl | hl
      · rw [hl]
      · rw [hl]
        show ({ u with speaker := if u.speaker = "" then u.speaker else u.speaker } :
          Utterance) = u
        by_cases he : u.speaker = ""
        · rw [if_pos he]
        · rw [if_neg he]
    rw [List.map_congr_left hf, List.map_id']

/-- C8 witness: the identity mapping `A ↦ A` leaves a concrete utterance list
unchanged. -/
theorem C8_identity_mapping_idempotent_witness :
    (∀ e ∈ ([⟨"A", "A", Confidence.low⟩] : List Speaker), e.name = e.label) ∧
    mapSpeakerNames [⟨"A", "hi", 0, 1⟩, ⟨"B", "yo", 1, 2⟩]
      (some [⟨"A", "A", Confidence.low⟩]) = [⟨"A", "hi", 0, 1⟩, ⟨"B", "yo", 1, 2⟩] :=
  ⟨by decide,
    C8_identity_mapping_idempotent [⟨"A", "hi", 0, 1⟩, ⟨"B", "yo", 1, 2⟩]
      [⟨"A", "A", Confidence.low⟩] (by decide)⟩

/-- C10: `mapSpeakerNames` preserves length and order and changes at most the
`speaker` field; an utterance whose label has no entry, or whose entry's
name is empty, is returned unchanged; a `null` or empty mapping returns the
input list as is. -/
theorem C10_mapSpeakerNames_frame (utterances : List Utterance)
    (mapping : List Speaker) :
    mapSpeakerNames utterances none = utterances ∧
    mapSpeakerNames utterances (some []) = utterances ∧
    (mapSpeakerNames utterances (some mapping)).length = utterances.length ∧
    (∀ i : Nat,
      ((mapSpeakerNames utterances (some mapping))[i]?).map (·.text) =
        (utterances[i]?).map (·.text) ∧
      ((mapSpeakerNames utterances (some mapping))[i]?).map (·.start) =
        (utterances[i]?).map (·.start) ∧
      ((mapSpeakerNames utterances (some mapping))[i]?).map (·.stop) =
        (utterances[i]?).map (·.stop)) ∧
    (∀ (i : Nat) (u : Utterance), utterances[i]? = some u →
      ((∀ e ∈ mapping, e.label ≠ u.speaker) ∨
        lookupName mapping u.speaker = some "") →
      (mapSpeakerNames utterances (some mapping))[i]? = some u) := by
  by_cases hm : mapping.isEmpty
  · have hmap : mapSpeakerNames utterances (some mapping) = utterances := by
      rw [mapSpeakerNames, if_pos hm]
    refine ⟨rfl, rfl, by rw [hmap], fun i => ⟨by rw [hmap], by rw [hmap], by rw [hmap]⟩,
      fun i u hu _ => by rw [hmap, hu]⟩
  · have hmap : mapSpeakerNames utterances (some mapping) =
        utterances.map (fun u =>
          { u with speaker :=
              match lookupName mapping u.speaker with
              | some name => if name = "" then u.speaker else name
              | none => u.speaker }) := by
      rw [mapSpeakerNames, if_neg hm]
    refine ⟨rfl, by rw [mapSpeakerNames]; rfl, by rw [hmap]; exact List.length_map _ _,
      ?_, ?_⟩
    · intro i
      rw [hmap, List.getElem?_map]
      refine ⟨?_, ?_, ?_⟩ <;> rw [Option.map_map] <;> rfl
    · intro i u hu hcase
      rw [hmap, List.getElem?_map, hu]
      have : ({ u with speaker :=
          match lookupName mapping u.speaker with
          | some name => if name = "" then u.speaker else name
          | none => u.speaker } : Utterance) = u := by
        rcases hcase with hnone | hempty
        · rw [lookupName_eq_none mapping u.speaker hnone]
        · rw [hempty]
          show ({ u with speaker := if ("" : String) = "" then u.speaker else "" } :
            Utterance) = u
          rw [if_pos rfl]
      simp only [Option.map_some', this]

/-- C10 witness: the frame theorem applied to a concrete list with a mapping
that does not mention the utterance's label. -/
theorem C10_mapSpeakerNames_frame_witness :
    mapSpeakerNames [⟨"A", "hi", 0, 1⟩] none = [⟨"A", "hi", 0, 1⟩] ∧
    (mapSpeakerNames [⟨"A", "hi", 0, 1⟩]
      (some [⟨"B", "Bob", Confidence.high⟩]))[0]? = some ⟨"A", "hi", 0, 1⟩ :=
  ⟨(C10_mapSpeakerNames_frame [⟨"A", "hi", 0, 1⟩] [⟨"B", "Bob", Confidence.high⟩]).1,
    (C10_mapSpeakerNames_frame [⟨"A", "hi", 0, 1⟩]
      [⟨"B", "Bob", Confidence.high⟩]).2.2.2.2 0 ⟨"A", "hi", 0, 1⟩ rfl
      (Or.inl (by decide))⟩

/-! ### Collision-safe output naming (`transcribe.js` lines 346-356)

The filesystem is modelled by the list `fs` of existing paths; `existsSync`
is list membership.  Path joining (`join(outputDir, name)`) is modelled as
`dir ++ "/" ++ name`; the probe counter is printed with `toString`, which
agrees with the JS decimal template `${base} (${counter})${outputExt}`. -/

/-- The probed file name `${base} (${counter})${outputExt}`. -/
def collisionName (base ext : String) (counter : Nat) : String :=
  base ++ " (" ++ toString counter ++ ")" ++ ext

/-- `join(dir, name)` for the purposes of the collision loop. -/
def joinPath (dir name : String) : String :=
  dir ++ "/" ++ name

/-- The `while (existsSync(...)) counter++` loop.  The loop in the source is
unbounded; because only finitely many paths exist, fuel `fs.length + 1`
always suffices (proved below), so the embedding runs the loop on that
fuel. -/
def probeLoop (fs : List String) (dir base ext : String) (counter fuel : Nat) : Nat :=
  match fuel with
  | 0 => counter
  | f + 1 =>
    if joinPath dir (collisionName base ext counter) ∈ fs then
      probeLoop fs dir base ext (counter + 1) f
    else counter

/-- The collision-handling block: if the chosen output path exists, probe
`base (2)ext`, `base (3)ext`, … and take the first free name. -/
def resolveCollision (fs : List String) (dir base ext : String) : String :=
  if joinPath dir (base ++ ext) ∈ fs then
    joinPath dir (collisionName base ext (probeLoop fs dir base ext 2 (fs.length + 1)))
  else joinPath dir (base ++ ext)

/-! #### Injectivity of the probed names (decimal printing is injective) -/

/-- Decimal evaluation step: `a * 10` plus the digit value of `c`. -/
def decStep (a : Nat) (c : Char) : Nat := 10 * a + (c.toNat - 48)

lemma toDigitsCore_append (fuel : Nat) : ∀ (n : Nat) (ds : List Char),
    Nat.toDigitsCore 10 fuel n ds = Nat.toDigitsCore 10 fuel n [] ++ ds := by
  induction fuel with
  | zero =>
    intro n ds
    simp [Nat.toDigitsCore]
  | succ f ih =>
    intro n ds
    rw [Nat.toDigitsCore, Nat.toDigitsCore]
    by_cases h : n / 10 = 0
    · simp [h]
    · simp only [h, if_false]
      rw [ih (n / 10) ((n % 10).digitChar :: ds), ih (n / 10) [(n % 10).digitChar],
        List.append_assoc]
      rfl

lemma digitChar_val : ∀ k, k < 10 → (Nat.digitChar k).toNat - 48 = k := by decide

lemma toDigitsCore_val (fuel : Nat) : ∀ n, n < 10 ^ fuel → ∀ a : Nat,
    List.foldl decStep a (Nat.toDigitsCore 10 fuel n []) =
      a * 10 ^ (Nat.toDigitsCore 10 fuel n []).length + n := by
  induction fuel with
  | zero =>
    intro n hn a
    interval_cases n
    simp [Nat.toDigitsCore]
  | succ f ih =>
    intro n hn a
    rw [Nat.toDigitsCore]
    by_cases h : n / 10 = 0
    · simp only [h, if_true]
      have hn10 : n < 10 := by omega
      simp [decStep, digitChar_val (n % 10) (by omega)]
      omega
    · simp only [h, if_false]
      rw [toDigitsCore_append f (n / 10) [(n % 10).digitChar]]
      have hlt : n / 10 < 10 ^ f := by
        have : 10 ^ (f + 1) = 10 ^ f * 10 := by ring
        omega
      rw [List.foldl_append, ih (n / 10) hlt a]
      simp [decStep, digitChar_val (n % 10) (by omega)]
      ring_nf
      omega

lemma toDigits_val (n : Nat) : List.foldl decStep 0 (Nat.toDigits 10 n) = n := by
  have hlt : n < 10 ^ (n + 1) := by
    calc n < 10 ^ n := Nat.lt_pow_self (by norm_num) n
    _ ≤ 10 ^ (n + 1) := Nat.pow_le_pow_right (by norm_num) (Nat.le_succ n)
  have := toDigitsCore_val (n + 1) n hlt 0
  simpa [Nat.toDigits] using this

lemma toString_nat_injective (a b : Nat) (h : toString a = toString b) : a = b := by
  have hd : Nat.toDigits 10 a = Nat.toDigits 10 b := by
    have h' : (Nat.toDigits 10 a).asString = (Nat.toDigits 10 b).asString := h
    exact congrArg String.data h'
  have := congrArg (List.foldl decStep 0) hd
  rwa [toDigits_val, toDigits_val] at this

lemma collisionName_inj (dir base ext : String) (m n : Nat)
    (h : joinPath dir (collisionName base ext m) = joinPath dir (collisionName base ext n)) :
    m = n := by
  have hd := congrArg String.data h
  simp only [joinPath, collisionName, String.data_append, List.append_assoc] at hd
  have h1 := List.append_cancel_left hd
  have h2 := List.append_cancel_left h1
  have h3 := List.append_cancel_left h2
  have h4 := List.append_cancel_left h3
  have h5 : (toString m).data ++ (")".data ++ ext.data) =
      (toString n).data ++ (")".data ++ ext.data) := by
    simpa [List.append_assoc] using h4
  have h6 := List.append_cancel_right h5
  exact toString_nat_injective m n (String.ext h6)

/-! #### Termination and correctness of the probing loop -/

lemma exists_free_counter (fs : List String) (dir base ext : String) (start : Nat) :
    ∃ m, start ≤ m ∧ m < start + (fs.length + 1) ∧
      joinPath dir (collisionName base ext m) ∉ fs := by
  by_contra hcon
  push_neg at hcon
  have hsub : (List.range' start (fs.length + 1)).map
      (fun m => joinPath dir (collisionName base ext m)) ⊆ fs := by
    intro x hx
    rcases List.mem_map.1 hx with ⟨m, hm, rfl⟩
    rcases List.mem_range'.1 hm with ⟨i, hi, rfl⟩
    exact hcon _ (by omega) (by omega)
  have hinj : Function.Injective (fun m => joinPath dir (collisionName base ext m)) :=
    fun m n hmn => collisionName_inj dir base ext m n hmn
  have hnodup : ((List.range' start (fs.length + 1)).map
      (fun m => joinPath dir (collisionName base ext m))).Nodup :=
    (List.nodup_range' start (fs.length + 1)).map hinj
  have hle := (List.subperm_of_subset hnodup hsub).length_le
  rw [List.length_map, List.length_range'] at hle
  omega

lemma probeLoop_spec (fs : List String) (dir base ext : String) :
    ∀ (fuel counter : Nat),
    (∃ m, counter ≤ m ∧ m < counter + fuel ∧
      joinPath dir (collisionName base ext m) ∉ fs) →
    counter ≤ probeLoop fs dir base ext counter fuel ∧
    joinPath dir (collisionName base ext (probeLoop fs dir base ext counter fuel)) ∉ fs ∧
    (∀ k, counter ≤ k → k < probeLoop fs dir base ext counter fuel →
      joinPath dir (collisionName base ext k) ∈ fs) := by
  intro fuel
  induction fuel with
  | zero =>
    intro counter hex
    rcases hex with ⟨m, hm1, hm2, _⟩
    omega
  | succ f ih =>
    intro counter hex
    rw [probeLoop]
    by_cases hmem : joinPath dir (collisionName base ext counter) ∈ fs
    · rw [if_pos hmem]
      have hex' : ∃ m, counter + 1 ≤ m ∧ m < (counter + 1) + f ∧
          joinPath dir (collisionName base ext m) ∉ fs := by
        rcases hex with ⟨m, hm1, hm2, hm3⟩
        refine ⟨m, ?_, by omega, hm3⟩
        rcases Nat.eq_or_lt_of_le hm1 with rfl | hlt
        · exact absurd hmem hm3
        · omega
      rcases ih (counter + 1) hex' with ⟨ha, hb, hc⟩
      refine ⟨by omega, hb, ?_⟩
      intro k hk1 hk2
      rcases Nat.eq_or_lt_of_le hk1 with rfl | hlt
      · exact hmem
      · exact hc k (by omega) hk2
    · rw [if_neg hmem]
      exact ⟨le_rfl, hmem, fun k hk1 hk2 => absurd (by omega : k < k) (by omega)⟩

/-! ### Claim C5 — collision-safe output naming -/

/-- C5: when the chosen output path does not exist, it is used as is; when it
does exist, the writer probes `base (2)ext`, `base (3)ext`, … sequentially
and returns the first name that does not exist — it never returns a path
already present. -/
theorem C5_collision_safe_naming (fs : List String) (dir base ext : String) :
    (joinPath dir (base ++ ext) ∉ fs →
      resolveCollision fs dir base ext = joinPath dir (base ++ ext)) ∧
    (joinPath dir (base ++ ext) ∈ fs →
      resolveCollision fs dir base ext ∉ fs ∧
      ∃ m, 2 ≤ m ∧
        resolveCollision fs dir base ext = joinPath dir (collisionName base ext m) ∧
        joinPath dir (collisionName base ext m) ∉ fs ∧
        (∀ k, 2 ≤ k → k < m → joinPath dir (collisionName base ext k) ∈ fs)) := by
  constructor
  · intro hfree
    rw [resolveCollision, if_neg hfree]
  · intro hmem
    have hspec := probeLoop_spec fs dir base ext (fs.length + 1) 2
      (exists_free_counter fs dir base ext 2)
    rcases hspec with ⟨h2, hnot, hall⟩
    rw [resolveCollision, if_pos hmem]
    exact ⟨hnot, probeLoop fs dir base ext 2 (fs.length + 1), h2, rfl, hnot, hall⟩

/-- C5 witness: with `d/x.md` existing the writer picks `d/x (2).md`; with
both `d/x.md` and `d/x (2).md` existing it picks `d/x (3).md`, which is not
an existing path (the theorem applied at that concrete filesystem). -/
theorem C5_collision_safe_naming_witness :
    joinPath "d" ("x" ++ ".md") ∈ ["d/x.md", "d/x (2).md"] ∧
    resolveCollision ["d/x.md"] "d" "x" ".md" = "d/x (2).md" ∧
    resolveCollision ["d/x.md", "d/x (2).md"] "d" "x" ".md" = "d/x (3).md" ∧
    resolveCollision ["d/x.md", "d/x (2).md"] "d" "x" ".md" ∉ ["d/x.md", "d/x (2).md"] :=
  ⟨by decide, by decide, by decide,
    ((C5_collision_safe_naming ["d/x.md", "d/x (2).md"] "d" "x" ".md").2 (by decide)).1⟩

/-! ### URL detection (`src/utils/downloader.js`)

`String.startsWith` is modelled as a prefix test on the character list so
that concrete runs reduce inside the kernel. -/

/-- Prefix test on strings (the anchored-regex tests compile to this). -/
def strStartsWith (s p : String) : Bool :=
  p.data.isPrefixOf s.data

/-- `isUrl`: the regex `^https?:\/\/`. -/
def isUrl (input : String) : Bool :=
  strStartsWith input "http://" || strStartsWith input "https://"

/-- The `YOUTUBE_PATTERNS` anchored regexes, expanded into the string
prefixes they accept (`https?` and the optional `www.` group enumerated). -/
def YOUTUBE_PREFIXES : List String :=
  ["http://youtube.com/watch", "https://youtube.com/watch",
   "http://www.youtube.com/watch", "https://www.youtube.com/watch",
   "http://youtu.be/", "https://youtu.be/",
   "http://youtube.com/shorts/", "https://youtube.com/shorts/",
   "http://www.youtube.com/shorts/", "https://www.youtube.com/shorts/",
   "http://m.youtube.com/watch", "https://m.youtube.com/watch"]

/-- `isYouTubeUrl`: whether any of the YouTube patterns matches. -/
def isYouTubeUrl (input : String) : Bool :=
  YOUTUBE_PREFIXES.any (fun p => strStartsWith input p)

/-! ### Metadata storage (`src/utils/storage.js`)

The `transcripts` table is modelled as a list of rows.  The free-text
`content` column (the rendered document) is carried verbatim from the
caller in the source and plays no role in any key or claim; it is omitted
from the row model.  `file_path` stores the output path (the source stores
it relative to the vault root). -/

/-- One row of the `transcripts` table. -/
structure DbRecord where
  id : String
  source_url : Option String
  source_type : String
  title : String
  description : Option String
  channel : Option String
  channel_url : Option String
  duration_seconds : Int
  speakers : List String
  file_path : String
  created_at : String
  raw_metadata : Option String
  deriving Repr, DecidableEq

/-- `findBySourceUrl(dataDir, url)`:
`SELECT ... FROM transcripts WHERE source_url = ?` with `.get` — the first
matching row, or `null`. -/
def findBySourceUrl (db : List DbRecord) (url : String) : Option DbRecord :=
  db.find? (fun r => r.source_url = some url)

/-- `saveTranscript(dataDir, record)`: `INSERT OR REPLACE` keyed by the
primary key `id` — any existing row with the same id is deleted and the new
row inserted. -/
def saveTranscript (db : List DbRecord) (record : DbRecord) : List DbRecord :=
  db.filter (fun r => r.id ≠ record.id) ++ [record]

/-! ### The transcription pipeline (`transcribe.js` lines 222-384)

All external effects are inputs: `World` carries the database, the existing
file paths, the AssemblyAI transcription result, the sentence fetch result,
the OpenAI classifier outcome and the per-passage paragraph responses.
The trace of externally visible steps is returned as a list of `Event`s. -/

/-- The transcription provider's result
(`{ text, utterances, audioDuration, id }`). -/
structure TranscriptResult where
  id : String
  text : String
  utterances : List Utterance
  audioDuration : Int
  deriving Repr, DecidableEq

/-- Source metadata from the resolver (`download` / yt-dlp); `none` models an
absent (`undefined`) field. -/
structure SourceInfo where
  title : Option String
  description : Option String
  uploader : Option String
  channelUrl : Option String
  rawMetadata : Option String
  deriving Repr, DecidableEq

/-- All external collaborators of one run. -/
structure World where
  db : List DbRecord
  fs : List String
  transcript : TranscriptResult
  sentences : List Sentence
  classifier : Except String SpeakerIdentification
  paragraphResponses : List (Option (List String))
  hasOpenai : Bool
  sourceInfo : SourceInfo
  localBase : String
  nowIso : String

/-- Externally visible pipeline steps, in order of occurrence. -/
inductive Event where
  | download
  | transcribe
  | fetchSentences
  | save (id : String)
  deriving Repr, DecidableEq

/-- Run-terminating failures modelled by the embedding: the duplicate-URL
abort (`process.exit(1)` with the existing record's fields) and the
`TypeError` thrown by `groupSentences` on an empty sentence list. -/
inductive RunError where
  | duplicate (existing : DbRecord)
  | emptySentences
  deriving Repr, DecidableEq

/-- The observable outcome of a successful run. -/
structure RunSuccess where
  record : DbRecord
  db : List DbRecord
  outputPath : String
  utterances : List Utterance
  deriving Repr, DecidableEq

/-- `sourceInfo.title.replace(/[/\\?%*:|"<>]/g, '-').slice(0, 100)`. -/
def sanitizeTitle (t : String) : String :=
  String.mk ((t.data.map (fun c =>
    if c ∈ ['/', '\\', '?', '%', '*', ':', '|', '"', '<', '>'] then '-' else c)).take 100)

/-- The three output formats of the `--format` option. -/
inductive OutputFormat where
  | markdown
  | text
  | json
  deriving Repr, DecidableEq

/-- The derived file extension. -/
def outputExt : OutputFormat → String
  | OutputFormat.json => ".json"
  | OutputFormat.text => ".txt"
  | OutputFormat.markdown => ".md"

/-- `buildSpeakerContext(sourceInfo, speakerHint)` from `transcribe.js`
lines 152-159. -/
def buildSpeakerContext (si : SourceInfo) (speakerHint : String) : String :=
  String.intercalate "\n"
    ((match si.title with
      | some t => ["Video title: " ++ t]
      | none => []) ++
     (match si.uploader with
      | some up => ["Channel: " ++ up]
      | none => []) ++
     (match si.description with
      | some d => ["Video description: " ++ String.mk (d.data.take 1000)]
      | none => []) ++
     (if speakerHint = "" then [] else ["Additional context: " ++ speakerHint]))

/-- `identifyAndFormat(openai, utterances, { diarize, context })` from
`transcribe.js` lines 171-207, returning
`(utterances, speakers, reasoning)`.  The three modes: no OpenAI client (or
no utterances) passes through; diarization off only reflows; otherwise
speaker identification and reflow run (concurrently in the source) and the
mapping is applied to the reflowed utterances. -/
def identifyAndFormat (hasOpenai diarize : Bool)
    (classifier : Except String SpeakerIdentification)
    (paragraphResponses : List (Option (List String))) (context : String)
    (utterances : List Utterance) : List Utterance × List Speaker × String :=
  if utterances.isEmpty || !hasOpenai then (utterances, [], "")
  else if !diarize then (breakIntoParagraphs utterances paragraphResponses 1500, [], "")
  else
    let identification := identifySpeakers utterances context classifier
    let broken := breakIntoParagraphs utterances paragraphResponses 1500
    (mapSpeakerNames broken (some identification.speakers), identification.speakers,
      identification.reasoning)

/-- Steps 2-3 of the pipeline (`transcribe.js` lines 291-374): speaker
identification and reflow, output-path resolution with collision handling
(the default `Resources/Transcripts` directory; the `-o` override differs
only in the chosen directory and base), and the metadata save. -/
def finishPipeline (w : World) (input : String) (wasUrl diarize : Bool)
    (speakerHint : String) (format : OutputFormat) (events : List Event)
    (segmented : List Utterance) : List Event × Except RunError RunSuccess :=
  let context := buildSpeakerContext w.sourceInfo speakerHint
  let step2 := identifyAndFormat w.hasOpenai diarize w.classifier
    w.paragraphResponses context segmented
  let sourceFilename := match w.sourceInfo.title with
    | some t => sanitizeTitle t
    | none => w.localBase
  let outputPath := resolveCollision w.fs "Resources/Transcripts" sourceFilename
    (outputExt format)
  let record : DbRecord := {
    id := w.transcript.id,
    source_url := if wasUrl then some input else none,
    source_type := if wasUrl then (if isYouTubeUrl input then "youtube" else "url")
      else "local",
    title := sourceFilename,
    description := w.sourceInfo.description,
    channel := w.sourceInfo.uploader,
    channel_url := w.sourceInfo.channelUrl,
    duration_seconds := w.transcript.audioDuration,
    speakers := step2.2.1.map (·.name),
    file_path := outputPath,
    created_at := w.nowIso,
    raw_metadata := w.sourceInfo.rawMetadata }
  (events ++ [Event.save w.transcript.id],
    Except.ok { record := record, db := saveTranscript w.db record,
                outputPath := outputPath, utterances := step2.1 })

/-- Step 1 onwards (`transcribe.js` lines 260-289): transcription, then the
segmentation step — sentence fetch only when some utterance exceeds 4000
characters, `groupSentences` for single-speaker transcripts (which throws on
an empty sentence list), `splitLongUtterances` otherwise. -/
def runPipeline (w : World) (input : String) (wasUrl diarize : Bool)
    (speakerHint : String) (format : OutputFormat) :
    List Event × Except RunError RunSuccess :=
  let preEvents := (if wasUrl then [Event.download] else []) ++ [Event.transcribe]
  let speakers := dedupFirst (w.transcript.utterances.map (·.speaker))
  let hasLong := w.transcript.utterances.any (fun u => 4000 < u.text.length)
  if hasLong then
    let events := preEvents ++ [Event.fetchSentences]
    if speakers.length = 1 then
      match groupSentences w.sentences 4000 with
      | none => (events, Except.error RunError.emptySentences)
      | some grouped => finishPipeline w input wasUrl diarize speakerHint format
          events grouped
    else
      finishPipeline w input wasUrl diarize speakerHint format events
        (splitLongUtterances w.transcript.utterances w.sentences 4000)
  else
    finishPipeline w input wasUrl diarize speakerHint format preEvents
      w.transcript.utterances

/-- `handleTranscribe(argv)` (`transcribe.js` lines 222-384): for URL inputs
without `--force`, the duplicate check runs before the download and aborts
the run reporting the stored record; otherwise the pipeline runs. -/
def handleTranscribe (w : World) (input : String) (force diarize : Bool)
    (speakerHint : String) (format : OutputFormat) :
    List Event × Except RunError RunSuccess :=
  if isUrl input then
    if force = false then
      match findBySourceUrl w.db input with
      | some existing => ([], Except.error (RunError.duplicate existing))
      | none => runPipeline w input true diarize speakerHint format
    else runPipeline w input true diarize speakerHint format
  else runPipeline w input false diarize speakerHint format

/-! ### Upsert lemmas for `saveTranscript` -/

lemma saveTranscript_filter_self (db : List DbRecord) (record : DbRecord) :
    (saveTranscript db record).filter (fun r => r.id = record.id) = [record] := by
  rw [saveTranscript, List.filter_append, List.filter_filter]
  have h1 : (fun a : DbRecord => decide (a.id = record.id) && decide (a.id ≠ record.id)) =
      fun _ => false := by
    funext a
    by_cases h : a.id = record.id <;> simp [h]
  rw [h1, List.filter_false]
  simp

lemma saveTranscript_filter_other (db : List DbRecord) (record : DbRecord) :
    (saveTranscript db record).filter (fun r => r.id ≠ record.id) =
      db.filter (fun r => r.id ≠ record.id) := by
  rw [saveTranscript, List.filter_append, List.filter_filter]
  have h1 : (fun a : DbRecord => decide (a.id ≠ record.id) && decide (a.id ≠ record.id)) =
      fun a : DbRecord => decide (a.id ≠ record.id) := by
    funext a
    by_cases h : a.id = record.id <;> simp [h]
  rw [h1]
  simp

/-! ### Pipeline shape lemmas -/

lemma finishPipeline_snd (w : World) (input : String) (wasUrl diarize : Bool)
    (speakerHint : String) (format : OutputFormat) (events : List Event)
    (segmented : List Utterance) :
    ∀ res, (finishPipeline w input wasUrl diarize speakerHint format events
        segmented).2 = Except.ok res →
      res.record.id = w.transcript.id ∧ res.db = saveTranscript w.db res.record := by
  intro res h
  rw [finishPipeline] at h
  dsimp only at h
  injection h with h'
  subst h'
  exact ⟨rfl, rfl⟩

lemma runPipeline_ok (w : World) (input : String) (wasUrl diarize : Bool)
    (speakerHint : String) (format : OutputFormat) :
    ∀ res, (runPipeline w input wasUrl diarize speakerHint format).2 = Except.ok res →
      res.record.id = w.transcript.id ∧ res.db = saveTranscript w.db res.record := by
  intro res h
  rw [runPipeline] at h
  dsimp only at h
  by_cases hlong : (w.transcript.utterances.any (fun u => 4000 < u.text.length)) = true
  · rw [if_pos hlong] at h
    by_cases hspk : (dedupFirst (w.transcript.utterances.map (·.speaker))).length = 1
    · rw [if_pos hspk] at h
      cases hgs : groupSentences w.sentences 4000 with
      | none =>
        rw [hgs] at h
        simp at h
      | some grouped =>
        rw [hgs] at h
        exact finishPipeline_snd w input wasUrl diarize speakerHint format _ _ res h
    · rw [if_neg hspk] at h
      exact finishPipeline_snd w input wasUrl diarize speakerHint format _ _ res h
  · rw [if_neg hlong] at h
    exact finishPipeline_snd w input wasUrl diarize speakerHint format _ _ res h

lemma runPipeline_head (w : World) (input : String) (diarize : Bool)
    (speakerHint : String) (format : OutputFormat) :
    (runPipeline w input true diarize speakerHint format).1.head? =
      some Event.download := by
  rw [runPipeline]
  dsimp only
  by_cases hlong : (w.transcript.utterances.any (fun u => 4000 < u.text.length)) = true
  · rw [if_pos hlong]
    by_cases hspk : (dedupFirst (w.transcript.utterances.map (·.speaker))).length = 1
    · rw [if_pos hspk]
      cases hgs : groupSentences w.sentences 4000 with
      | none => rfl
      | some grouped => rfl
    · rw [if_neg hspk]
      rfl
  · rw [if_neg hlong]
    rfl

/-! ### Claim C4 — deduplication and insert-or-replace -/

/-- C4: for a URL input, (a) if the store has a row with that exact
`source_url` the lookup finds one; (b) without `--force` the run aborts
immediately — no download, transcription or save happens (the event trace
is empty) — reporting the stored record; (c) with `--force` the run
proceeds (the first event is the download); and (d) any successful run
saves a record keyed by the provider's transcript id, replacing exactly the
rows with that id and leaving all other rows unchanged. -/
theorem C4_deduplication (w : World) (input : String) (diarize : Bool)
    (speakerHint : String) (format : OutputFormat) (hurl : isUrl input = true) :
    ((∃ r ∈ w.db, r.source_url = some input) →
      (findBySourceUrl w.db input).isSome = true) ∧
    (∀ existing, findBySourceUrl w.db input = some existing →
      handleTranscribe w input false diarize speakerHint format =
        ([], Except.error (RunError.duplicate existing))) ∧
    ((handleTranscribe w input true diarize speakerHint format).1.head? =
      some Event.download) ∧
    (∀ res, (handleTranscribe w input true diarize speakerHint format).2 =
        Except.ok res →
      res.record.id = w.transcript.id ∧
      res.db = saveTranscript w.db res.record ∧
      res.db.filter (fun r => r.id = res.record.id) = [res.record] ∧
      res.db.filter (fun r => r.id ≠ res.record.id) =
        w.db.filter (fun r => r.id ≠ res.record.id)) := by
  have hrun : handleTranscribe w input true diarize speakerHint format =
      runPipeline w input true diarize speakerHint format := by
    rw [handleTranscribe, if_pos hurl, if_neg (by simp)]
  refine ⟨?_, ?_, ?_, ?_⟩
  · rintro ⟨r, hr, hru⟩
    rw [findBySourceUrl, List.find?_isSome]
    exact ⟨r, hr, by simp [hru]⟩
  · intro existing hex
    rw [handleTranscribe, if_pos hurl, if_pos rfl, hex]
  · rw [hrun]
    exact runPipeline_head w input diarize speakerHint format
  · intro res hres
    rw [hrun] at hres
    rcases runPipeline_ok w input true diarize speakerHint format res hres with ⟨hid, hdb⟩
    refine ⟨hid, hdb, ?_, ?_⟩
    · rw [hdb]
      exact saveTranscript_filter_self w.db res.record
    · rw [hdb]
      exact saveTranscript_filter_other w.db res.record

/-- C4 witness: with a stored row for `http://a`, re-running without the
override aborts with an empty event trace reporting that row, and with the
override the first pipeline event is the download. -/
theorem C4_deduplication_witness :
    isUrl "http://a" = true ∧
    handleTranscribe
      { db := [{ id := "old", source_url := some "http://a", source_type := "url",
                 title := "T", description := none, channel := none,
                 channel_url := none, duration_seconds := 5, speakers := [],
                 file_path := "p", created_at := "2025", raw_metadata := none }],
        fs := [],
        transcript := { id := "t1", text := "x",
                        utterances := [⟨"A", "hi", 0, 1⟩], audioDuration := 10 },
        sentences := [], classifier := Except.error "x", paragraphResponses := [],
        hasOpenai := false,
        sourceInfo := { title := none, description := none, uploader := none,
                        channelUrl := none, rawMetadata := none },
        localBase := "a", nowIso := "2026" }
      "http://a" false true "" OutputFormat.markdown =
      ([], Except.error (RunError.duplicate
        { id := "old", source_url := some "http://a", source_type := "url",
          title := "T", description := none, channel := none, channel_url := none,
          duration_seconds := 5, speakers := [], file_path := "p",
          created_at := "2025", raw_metadata := none })) ∧
    (handleTranscribe
      { db := [{ id := "old", source_url := some "http://a", source_type := "url",
                 title := "T", description := none, channel := none,
                 channel_url := none, duration_seconds := 5, speakers := [],
                 file_path := "p", created_at := "2025", raw_metadata := none }],
        fs := [],
        transcript := { id := "t1", text := "x",
                        utterances := [⟨"A", "hi", 0, 1⟩], audioDuration := 10 },
        sentences := [], classifier := Except.error "x", paragraphResponses := [],
        hasOpenai := false,
        sourceInfo := { title := none, description := none, uploader := none,
                        channelUrl := none, rawMetadata := none },
        localBase := "a", nowIso := "2026" }
      "http://a" true true "" OutputFormat.markdown).1.head? = some Event.download :=
  ⟨by decide,
    (C4_deduplication
      { db := [{ id := "old", source_url := some "http://a", source_type := "url",
                 title := "T", description := none, channel := none,
                 channel_url := none, duration_seconds := 5, speakers := [],
                 file_path := "p", created_at := "2025", raw_metadata := none }],
        fs := [],
        transcript := { id := "t1", text := "x",
                        utterances := [⟨"A", "hi", 0, 1⟩], audioDuration := 10 },
        sentences := [], classifier := Except.error "x", paragraphResponses := [],
        hasOpenai := false,
        sourceInfo := { title := none, description := none, uploader := none,
                        channelUrl := none, rawMetadata := none },
        localBase := "a", nowIso := "2026" }
      "http://a" true "" OutputFormat.markdown (by decide)).2.1 _ (by decide),
    (C4_deduplication
      { db := [{ id := "old", source_url := some "http://a", source_type := "url",
                 title := "T", description := none, channel := none,
                 channel_url := none, duration_seconds := 5, speakers := [],
                 file_path := "p", created_at := "2025", raw_metadata := none }],
        fs := [],
        transcript := { id := "t1", text := "x",
                        utterances := [⟨"A", "hi", 0, 1⟩], audioDuration := 10 },
        sentences := [], classifier := Except.error "x", paragraphResponses := [],
        hasOpenai := false,
        sourceInfo := { title := none, description := none, uploader := none,
                        channelUrl := none, rawMetadata := none },
        localBase := "a", nowIso := "2026" }
      "http://a" true "" OutputFormat.markdown (by decide)).2.2.1⟩

/-! ### Claim C9 — segmentation totality on empty sentence data -/

/-- C9: `groupSentences` reads the first sentence unconditionally, so it
throws (`none`) exactly on the empty list and returns normally on every
non-empty list; consequently, in the single-speaker path of the pipeline
(one distinct label, some utterance over 4000 characters), a sentence fetch
returning zero sentences makes the run fail with the `TypeError` instead of
leaving the oversized utterances in place. -/
theorem C9_empty_sentences_crash :
    (∀ maxChars : Nat, groupSentences ([] : List Sentence) maxChars = none) ∧
    (∀ (sentences : List Sentence) (maxChars : Nat), sentences ≠ [] →
      (groupSentences sentences maxChars).isSome = true) ∧
    (∀ (w : World) (input : String) (force diarize : Bool) (speakerHint : String)
        (format : OutputFormat),
      isUrl input = false →
      w.transcript.utterances.any (fun u => 4000 < u.text.length) = true →
      (dedupFirst (w.transcript.utterances.map (·.speaker))).length = 1 →
      w.sentences = [] →
      handleTranscribe w input force diarize speakerHint format =
        ([Event.transcribe, Event.fetchSentences],
          Except.error RunError.emptySentences)) := by
  refine ⟨fun _ => rfl, ?_, ?_⟩
  · intro sentences maxChars hne
    cases sentences with
    | nil => exact absurd rfl hne
    | cons s0 tl => rfl
  · intro w input force diarize speakerHint format hurl hlong hspk hsent
    rw [handleTranscribe, if_neg (by simp [hurl])]
    rw [runPipeline]
    dsimp only
    rw [if_pos hlong, if_pos hspk, hsent]
    rfl

/-- C9 witness: a single-speaker transcript with a 4001-character utterance
and an empty sentence fetch crashes the run. -/
theorem C9_empty_sentences_crash_witness :
    isUrl "a.mp3" = false ∧
    handleTranscribe
      { db := [], fs := [],
        transcript := { id := "t1", text := "x",
                        utterances := [⟨"A", String.mk (List.replicate 4001 'a'), 0, 1⟩],
                        audioDuration := 10 },
        sentences := [], classifier := Except.error "x", paragraphResponses := [],
        hasOpenai := false,
        sourceInfo := { title := none, description := none, uploader := none,
                        channelUrl := none, rawMetadata := none },
        localBase := "a", nowIso := "2026" }
      "a.mp3" false true "" OutputFormat.markdown =
      ([Event.transcribe, Event.fetchSentences],
        Except.error RunError.emptySentences) :=
  ⟨by decide,
    C9_empty_sentences_crash.2.2
      { db := [], fs := [],
        transcript := { id := "t1", text := "x",
                        utterances := [⟨"A", String.mk (List.replicate 4001 'a'), 0, 1⟩],
                        audioDuration := 10 },
        sentences := [], classifier := Except.error "x", paragraphResponses := [],
        hasOpenai := false,
        sourceInfo := { title := none, description := none, uploader := none,
                        channelUrl := none, rawMetadata := none },
        localBase := "a", nowIso := "2026" }
      "a.mp3" false true "" OutputFormat.markdown (by decide)
      (by rw [List.any_cons, List.any_nil]
          have h : (String.mk (List.replicate 4001 'a')).length = 4001 := by
            rw [show (String.mk (List.replicate 4001 'a')).length =
              (List.replicate 4001 'a').length from rfl, List.length_replicate]
          show (decide (4000 < (String.mk (List.replicate 4001 'a')).length) || false) = true
          rw [h]
          decide)
      (by simp [dedupFirst]) rfl⟩

end Transcription
